import Mathlib

set_option maxRecDepth 10000

/-!
Verification of the mailcopy fetch-to-archive pipeline.

The definitions below are a shallow embedding of the program's core:

* `sha256` / `hexEncode` / `fingerprint` embed the content fingerprinting
  performed by `write_messages` in `src/mail.rs` (the `sha2` crate's SHA-256
  followed by `hex::encode`, producing lowercase hexadecimal).
* `write_messages_go` / `write_messages` embed the per-folder message loop of
  `write_messages` (`src/mail.rs` lines 22-70): for each message, if a body is
  present the body is hashed, an archive entry `<folder>/<hex>.eml` with mode
  `0o755` is appended (a failing append aborts via `?`), the byte total grows
  by the body length and a debug line is emitted; if the body is absent a
  warning is logged and the message is skipped; the progress counter is
  incremented once per fully handled message.
* `fetchLoop` / `mainRun` embed the orchestrator loop shared by
  `fetch_messages` (`src/mail.rs` lines 72-111) and `main`
  (`src/main.rs` lines 105-147): folders are visited in listing order,
  `session.examine(name)?` propagates a selection failure, a failing
  `session.fetch` is absorbed with a warning, a writer error propagates, and
  only after the loop completes are the two summary lines logged and
  `writer.finish()` invoked.
* `timeDeltaFormat` / `pad2` embed `impl Format for TimeDelta`
  (`src/main.rs` lines 48-56), including Rust's `{:0>2}` padding and the
  truncating `i64` division and remainder.

Effects that matter to the specification (archive entries, log events,
progress increments, byte totals) are tracked explicitly in the state records;
purely visual effects (progress-bar styling, `set_message`) are not modelled.
-/

namespace Mailcopy

/-! ## SHA-256 over byte lists (the `sha2` crate computation) -/

/-- Truncation to a 32-bit word. -/
def w32 (n : Nat) : Nat := n % 4294967296

/-- Right rotation of a 32-bit word by `k` bits. -/
def rotr (w k : Nat) : Nat := w32 ((w >>> k) ||| (w <<< (32 - k)))

/-- Bitwise complement of a 32-bit word. -/
def wnot (w : Nat) : Nat := 4294967295 ^^^ w

def shaCh (e f g : Nat) : Nat := (e &&& f) ^^^ (wnot e &&& g)

def shaMaj (a b c : Nat) : Nat := (a &&& b) ^^^ (a &&& c) ^^^ (b &&& c)

def bsig0 (a : Nat) : Nat := rotr a 2 ^^^ rotr a 13 ^^^ rotr a 22

def bsig1 (e : Nat) : Nat := rotr e 6 ^^^ rotr e 11 ^^^ rotr e 25

def ssig0 (w : Nat) : Nat := rotr w 7 ^^^ rotr w 18 ^^^ (w >>> 3)

def ssig1 (w : Nat) : Nat := rotr w 17 ^^^ rotr w 19 ^^^ (w >>> 10)

/-- The 64 SHA-256 round constants (FIPS 180-4), written in decimal. -/
def sha256K : List Nat :=
  [1116352408, 1899447441, 3049323471, 3921009573,
   961987163, 1508970993, 2453635748, 2870763221,
   3624381080, 310598401, 607225278, 1426881987,
   1925078388, 2162078206, 2614888103, 3248222580,
   3835390401, 4022224774, 264347078, 604807628,
   770255983, 1249150122, 1555081692, 1996064986,
   2554220882, 2821834349, 2952996808, 3210313671,
   3336571891, 3584528711, 113926993, 338241895,
   666307205, 773529912, 1294757372, 1396182291,
   1695183700, 1986661051, 2177026350, 2456956037,
   2730485921, 2820302411, 3259730800, 3345764771,
   3516065817, 3600352804, 4094571909, 275423344,
   430227734, 506948616, 659060556, 883997877,
   958139571, 1322822218, 1537002063, 1747873779,
   1955562222, 2024104815, 2227730452, 2361852424,
   2428436474, 2756734187, 3204031479, 3329325298]

/-- The eight 32-bit working variables of the compression function. -/
structure Hash8 where
  a : Nat
  b : Nat
  c : Nat
  d : Nat
  e : Nat
  f : Nat
  g : Nat
  h : Nat
deriving DecidableEq

/-- The SHA-256 initial hash value (FIPS 180-4), written in decimal. -/
def sha256Init : Hash8 :=
  ⟨1779033703, 3144134277, 1013904242, 2773480762,
   1359893119, 2600822924, 528734635, 1541459225⟩

/-- Big-endian 32-bit words from a byte list (4 bytes per word). -/
def wordsOf : List Nat → List Nat
  | b0 :: b1 :: b2 :: b3 :: rest =>
      (b0 * 16777216 + b1 * 65536 + b2 * 256 + b3) :: wordsOf rest
  | _ => []

/-- One step of the message-schedule extension: append word `W[n]`. -/
def scheduleStep (ws : List Nat) (_i : Nat) : List Nat :=
  let n := ws.length
  let w := w32 (ssig1 (ws.getD (n - 2) 0) + ws.getD (n - 7) 0 +
                ssig0 (ws.getD (n - 15) 0) + ws.getD (n - 16) 0)
  ws ++ [w]

/-- Extend the 16 block words to the 64 schedule words. -/
def schedule (ws : List Nat) : List Nat := (List.range 48).foldl scheduleStep ws

/-- One SHA-256 compression round. -/
def shaRound (s : Hash8) (kw : Nat × Nat) : Hash8 :=
  let t1 := w32 (s.h + bsig1 s.e + shaCh s.e s.f s.g + kw.1 + kw.2)
  let t2 := w32 (bsig0 s.a + shaMaj s.a s.b s.c)
  ⟨w32 (t1 + t2), s.a, s.b, s.c, w32 (s.d + t1), s.e, s.f, s.g⟩

/-- Compress one 64-byte block into the running hash. -/
def compressBlock (hv : Hash8) (block : List Nat) : Hash8 :=
  let ws := schedule (wordsOf block)
  let s := (sha256K.zip ws).foldl shaRound hv
  ⟨w32 (hv.a + s.a), w32 (hv.b + s.b), w32 (hv.c + s.c), w32 (hv.d + s.d),
   w32 (hv.e + s.e), w32 (hv.f + s.f), w32 (hv.g + s.g), w32 (hv.h + s.h)⟩

/-- Compress `n` consecutive 64-byte blocks into the running hash. -/
def compressN : Nat → Hash8 → List Nat → Hash8
  | 0, hv, _ => hv
  | n + 1, hv, l => compressN n (compressBlock hv (l.take 64)) (l.drop 64)

/-- Compress every 64-byte block of the (already padded) message. -/
def compressAll (hv : Hash8) (l : List Nat) : Hash8 := compressN (l.length / 64) hv l

/-- The eight-byte big-endian encoding of the bit length. -/
def lenBytes (n : Nat) : List Nat :=
  [n / 72057594037927936 % 256, n / 281474976710656 % 256,
   n / 1099511627776 % 256, n / 4294967296 % 256,
   n / 16777216 % 256, n / 65536 % 256, n / 256 % 256, n % 256]

/-- SHA-256 padding: a `0x80` byte, zeros to 56 mod 64, then the bit length. -/
def padMsg (m : List Nat) : List Nat :=
  m ++ [128] ++ List.replicate ((119 - m.length % 64) % 64) 0 ++
    lenBytes (8 * m.length)

/-- The four big-endian bytes of a 32-bit word. -/
def wordBytes (w : Nat) : List Nat :=
  [w / 16777216 % 256, w / 65536 % 256, w / 256 % 256, w % 256]

/-- The 32 digest bytes of a final hash state. -/
def digestBytes (hv : Hash8) : List Nat :=
  wordBytes hv.a ++ wordBytes hv.b ++ wordBytes hv.c ++ wordBytes hv.d ++
  wordBytes hv.e ++ wordBytes hv.f ++ wordBytes hv.g ++ wordBytes hv.h

/-- SHA-256 of a byte list, as computed by the `sha2` crate in
`write_messages` (`src/mail.rs` lines 34-38). -/
def sha256 (m : List Nat) : List Nat := digestBytes (compressAll sha256Init (padMsg m))

/-- Lowercase hexadecimal characters of a byte list, high nibble first
(the `hex::encode` convention). -/
def hexChars (bs : List Nat) : List Char :=
  bs.foldr (fun b acc => Nat.digitChar (b / 16) :: Nat.digitChar (b % 16) :: acc) []

/-- Lowercase hexadecimal encoding of a byte list (`hex::encode`). -/
def hexEncode (bs : List Nat) : String := String.mk (hexChars bs)

/-- The content fingerprint of a message body: lowercase hex SHA-256
(`src/mail.rs` lines 34-39). -/
def fingerprint (body : List Nat) : String := hexEncode (sha256 body)

/-! ## Data model of the pipeline -/

/-- A fetched message: `imap::types::Fetch`, reduced to the one accessor the
pipeline uses, `message.body()`, which yields the raw body bytes or nothing. -/
structure Message where
  body : Option (List Nat)
deriving DecidableEq

/-- One archive entry as produced by `write_messages`: the joined path, the
mode bits set on the header (`header.set_mode(0o755)`), and the raw appended
bytes. -/
structure Entry where
  path : String
  mode : Nat
  contents : List Nat
deriving DecidableEq

/-- The log events the pipeline emits, in order.  Each constructor carries the
data interpolated into the corresponding `debug!` / `warn!` / `info!` format
string in the source. -/
inductive LogLine where
  /-- `debug!("{index}/{count} -> {path} [{size}]")` after a successful append
  (`src/mail.rs` line 54). -/
  | debugEntry (index count : Nat) (path : String) (size : Nat)
  /-- `warn!("{index}/{count} -> Skipping: Unable to retrieve message body")`
  (`src/mail.rs` line 60). -/
  | warnNoBody (index count : Nat)
  /-- `info!("{index}/{count} -> {name} [{size}]")` after a folder completes
  (`src/main.rs` line 129, `src/mail.rs` line 96). -/
  | infoFolder (index count : Nat) (name : String) (size : Nat)
  /-- `warn!("{index}/{count} -> Skipping {name}: {error}")` when the fetch
  fails (`src/main.rs` line 131, `src/mail.rs` line 98). -/
  | warnFolder (index count : Nat) (name : String) (error : String)
  /-- `info!("Copy completed in {elapsed}")` (`src/main.rs` line 140). -/
  | infoElapsed
  /-- `info!("Total copy size is {total}")` (`src/main.rs` line 141). -/
  | infoTotal (total : Nat)
deriving DecidableEq

/-- Model of `Path::new(name).join(filename)` for an IMAP folder name used as
an opaque path prefix (folder names do not end in a separator). -/
def joinPath (name file : String) : String :=
  if name = "" then file else name ++ "/" ++ file

/-- The archive sink: given how many entries have been appended so far,
does the next append succeed?  This models `builder.append_data` /
`writer.start_file + write` returning `Ok` or an error. -/
def ArchiveSink : Type := Nat → Except String Unit

/-- The archive sink whose appends always succeed. -/
def archOK : ArchiveSink := fun _ => Except.ok ()

/-- The state threaded through one `write_messages` call: entries appended so
far (globally), log events, the per-folder progress-bar position, the
per-folder byte total, and the global count of appends already performed. -/
structure WriteSt where
  entries : List Entry
  logs : List LogLine
  incs : Nat
  total : Nat
  appended : Nat
deriving DecidableEq

/-- The body of the `for message in messages` loop of `write_messages`
(`src/mail.rs` lines 30-64).  For each message: read the bar position into
`index`; if a body is present, fingerprint it, build the entry path
`name/<hex>.eml`, set mode `0o755`, append (a failing append returns the
error immediately, as `builder.append_data(..)?` does), add the body length
to the folder total and log the debug line; otherwise log the skip warning.
Either way the progress bar is incremented once at the end of the
iteration. -/
def write_messages_go (arch : ArchiveSink) (name : String) (count : Nat) :
    List Message → WriteSt → WriteSt × Option String
  | [], st => (st, none)
  | m :: rest, st =>
    let index := st.incs + 1
    match m.body with
    | some body =>
      let path := joinPath name (fingerprint body ++ ".eml")
      let size := body.length
      match arch st.appended with
      | Except.error e => (st, some e)
      | Except.ok _ =>
        write_messages_go arch name count rest
          { entries := st.entries ++ [⟨path, 493, body⟩],
            logs := st.logs ++ [LogLine.debugEntry index count path size],
            incs := st.incs + 1,
            total := st.total + size,
            appended := st.appended + 1 }
    | none =>
      write_messages_go arch name count rest
        { st with
            logs := st.logs ++ [LogLine.warnNoBody index count],
            incs := st.incs + 1 }

/-- `write_messages` (`src/mail.rs` lines 22-70): a fresh progress bar sized
to the message count, then the loop above, starting from an empty per-folder
state with `appended` appends already performed globally. -/
def write_messages (arch : ArchiveSink) (msgs : List Message) (name : String)
    (appended : Nat) : WriteSt × Option String :=
  write_messages_go arch name msgs.length msgs ⟨[], [], 0, 0, appended⟩

/-- The orchestrator state: all entries appended, all log events, the grand
byte total, the global append count, and the folder progress-bar position. -/
structure RunSt where
  entries : List Entry
  logs : List LogLine
  total : Nat
  appended : Nat
  folderIncs : Nat
deriving DecidableEq

/-- The initial orchestrator state. -/
def initSt : RunSt := ⟨[], [], 0, 0, 0⟩

/-- The `for name in &messages` folder loop shared by `main`
(`src/main.rs` lines 114-135) and `fetch_messages` (`src/mail.rs` lines
82-102).  For each folder name: `session.examine(name)?` propagates a
selection failure immediately; on `session.fetch("1:*", "RFC822")` success
the messages are written (a writer error propagates immediately, before the
info line and before the folder bar increment), the folder total is added to
the grand total and the info line logged; on fetch failure a warning naming
the folder and the error is logged and the loop continues.  The folder bar
is incremented at the end of a non-propagating iteration. -/
def fetchLoop (examine : String → Except String Unit)
    (fetch : String → Except String (List Message))
    (arch : ArchiveSink) (count : Nat) :
    List String → RunSt → RunSt × Option String
  | [], st => (st, none)
  | name :: rest, st =>
    let index := st.folderIncs + 1
    match examine name with
    | Except.error e => (st, some e)
    | Except.ok _ =>
      match fetch name with
      | Except.ok msgs =>
        match write_messages arch msgs name st.appended with
        | (w, some e) =>
          ({ st with
               entries := st.entries ++ w.entries,
               logs := st.logs ++ w.logs,
               appended := w.appended }, some e)
        | (w, none) =>
          fetchLoop examine fetch arch count rest
            { entries := st.entries ++ w.entries,
              logs := st.logs ++ w.logs ++
                [LogLine.infoFolder index count name w.total],
              total := st.total + w.total,
              appended := w.appended,
              folderIncs := st.folderIncs + 1 }
      | Except.error e =>
        fetchLoop examine fetch arch count rest
          { st with
              logs := st.logs ++ [LogLine.warnFolder index count name e],
              folderIncs := st.folderIncs + 1 }

/-- The observable outcome of a run of `main` (`src/main.rs` lines 105-147):
entries appended to the archive, log events, the grand total, the propagated
error if the run aborted, whether the two summary lines were logged, and
whether `writer.finish()` was reached. -/
structure MainOut where
  entries : List Entry
  logs : List LogLine
  total : Nat
  err : Option String
  summary : Bool
  finished : Bool
deriving DecidableEq

/-- `main`'s fetch-to-archive portion (`src/main.rs` lines 105-147):
`session.list(..)?` is fatal on failure; then the folder loop; a loop error
propagates (skipping everything after it); only when the loop completes are
the two summary info lines emitted and `writer.finish()` invoked. -/
def mainRun (listRes : Except String (List String))
    (examine : String → Except String Unit)
    (fetch : String → Except String (List Message))
    (arch : ArchiveSink) : MainOut :=
  match listRes with
  | Except.error e => ⟨[], [], 0, some e, false, false⟩
  | Except.ok folders =>
    match fetchLoop examine fetch arch folders.length folders initSt with
    | (st, some e) => ⟨st.entries, st.logs, st.total, some e, false, false⟩
    | (st, none) =>
      ⟨st.entries, st.logs ++ [LogLine.infoElapsed, LogLine.infoTotal st.total],
       st.total, none, true, true⟩

/-- The byte size a message contributes when written: its body length, or
zero when the body is absent. -/
def bodyBytes (m : Message) : Nat :=
  match m.body with
  | some b => b.length
  | none => 0

/-- The bytes a folder contributes to the grand total on a completed run:
the sum of its message body lengths, or zero when the fetch fails. -/
def folderBytes (fetch : String → Except String (List Message))
    (name : String) : Nat :=
  match fetch name with
  | Except.ok msgs => (msgs.map bodyBytes).sum
  | Except.error _ => 0

/-! ## Elapsed-time formatting -/

/-- Rust's `{:0>2}` format: right-align in width 2, filling with `'0'`. -/
def pad2 (s : String) : String :=
  if 2 ≤ s.length then s else String.mk (List.replicate (2 - s.length) '0') ++ s

/-- `impl Format for TimeDelta` (`src/main.rs` lines 48-56), as a function of
`self.num_seconds()`: truncating division and remainder on the signed second
count, fields joined as `"{:0>2}:{:0>2}:{:0>2}"` of hours, minutes, seconds. -/
def timeDeltaFormat (numSeconds : Int) : String :=
  let seconds := numSeconds.tmod 60
  let minutes := (numSeconds.tdiv 60).tmod 60
  let hours := (numSeconds.tdiv 60).tdiv 60
  pad2 (toString hours) ++ ":" ++ pad2 (toString minutes) ++ ":" ++
    pad2 (toString seconds)

/-! ## Auxiliary predicates -/

/-- The end-of-run summary lines (`src/main.rs` lines 140-141). -/
def isSummary : LogLine → Bool
  | LogLine.infoElapsed => true
  | LogLine.infoTotal _ => true
  | _ => false

/-- Lowercase hexadecimal characters: the digits `0`-`9` (code points 48-57)
and the letters `a`-`f` (code points 97-102). -/
def isHexChar (c : Char) : Bool :=
  (48 ≤ c.toNat && c.toNat ≤ 57) || (97 ≤ c.toNat && c.toNat ≤ 102)

/-! ## Lemmas about the message writer -/

theorem write_go_archOK_snd (name : String) (cnt : Nat) :
    ∀ msgs st, (write_messages_go archOK name cnt msgs st).2 = none := by
  intro msgs
  induction msgs with
  | nil => intro st; rfl
  | cons m rest ih =>
    intro st
    cases hb : m.body with
    | some body => simp [write_messages_go, hb, archOK, ih]
    | none => simp [write_messages_go, hb, ih]

theorem write_go_total (arch : ArchiveSink) (name : String) (cnt : Nat) :
    ∀ msgs st w, write_messages_go arch name cnt msgs st = (w, none) →
    w.total = st.total + (msgs.map bodyBytes).sum := by
  intro msgs
  induction msgs with
  | nil =>
    intro st w h
    simp [write_messages_go] at h
    simp [← h]
  | cons m rest ih =>
    intro st w h
    cases hb : m.body with
    | some body =>
      cases ha : arch st.appended with
      | error e => simp [write_messages_go, hb, ha] at h
      | ok u =>
        simp only [write_messages_go, hb, ha] at h
        have := ih _ _ h
        simp [this, bodyBytes, hb]
        omega
    | none =>
      simp only [write_messages_go, hb] at h
      have := ih _ _ h
      simp [this, bodyBytes, hb]

theorem write_go_logs (arch : ArchiveSink) (name : String) (cnt : Nat) :
    ∀ msgs st, ∃ t,
      (write_messages_go arch name cnt msgs st).1.logs = st.logs ++ t ∧
      ∀ l ∈ t, isSummary l = false := by
  intro msgs
  induction msgs with
  | nil => intro st; exact ⟨[], by simp [write_messages_go], by simp⟩
  | cons m rest ih =>
    intro st
    cases hb : m.body with
    | some body =>
      cases ha : arch st.appended with
      | error e => exact ⟨[], by simp [write_messages_go, hb, ha], by simp⟩
      | ok u =>
        obtain ⟨t, ht, hs⟩ := ih
          { entries := st.entries ++
              [⟨joinPath name (fingerprint body ++ ".eml"), 493, body⟩],
            logs := st.logs ++ [LogLine.debugEntry (st.incs + 1) cnt
              (joinPath name (fingerprint body ++ ".eml")) body.length],
            incs := st.incs + 1,
            total := st.total + body.length,
            appended := st.appended + 1 }
        refine ⟨LogLine.debugEntry (st.incs + 1) cnt
          (joinPath name (fingerprint body ++ ".eml")) body.length :: t, ?_, ?_⟩
        · simp only [write_messages_go, hb, ha]
          simp at ht
          simp [ht]
        · intro l hl
          rcases List.mem_cons.mp hl with h | h
          · simp [h, isSummary]
          · exact hs l h
    | none =>
      obtain ⟨t, ht, hs⟩ := ih
        { st with
            logs := st.logs ++ [LogLine.warnNoBody (st.incs + 1) cnt],
            incs := st.incs + 1 }
      refine ⟨LogLine.warnNoBody (st.incs + 1) cnt :: t, ?_, ?_⟩
      · simp only [write_messages_go, hb]
        simp at ht
        simp [ht]
      · intro l hl
        rcases List.mem_cons.mp hl with h | h
        · simp [h, isSummary]
        · exact hs l h

theorem write_go_entries (arch : ArchiveSink) (name : String) (cnt : Nat) :
    ∀ msgs st, ∃ new,
      (write_messages_go arch name cnt msgs st).1.entries = st.entries ++ new ∧
      ∀ en ∈ new, en.mode = 493 ∧
        en.path = joinPath name (fingerprint en.contents ++ ".eml") ∧
        ∃ m ∈ msgs, m.body = some en.contents := by
  intro msgs
  induction msgs with
  | nil => intro st; exact ⟨[], by simp [write_messages_go], by simp⟩
  | cons m rest ih =>
    intro st
    cases hb : m.body with
    | some body =>
      cases ha : arch st.appended with
      | error e => exact ⟨[], by simp [write_messages_go, hb, ha], by simp⟩
      | ok u =>
        obtain ⟨new, hn, hp⟩ := ih
          { entries := st.entries ++
              [⟨joinPath name (fingerprint body ++ ".eml"), 493, body⟩],
            logs := st.logs ++ [LogLine.debugEntry (st.incs + 1) cnt
              (joinPath name (fingerprint body ++ ".eml")) body.length],
            incs := st.incs + 1,
            total := st.total + body.length,
            appended := st.appended + 1 }
        refine ⟨⟨joinPath name (fingerprint body ++ ".eml"), 493, body⟩ :: new,
          ?_, ?_⟩
        · simp only [write_messages_go, hb, ha]
          simp at hn
          simp [hn]
        · intro en hen
          rcases List.mem_cons.mp hen with h | h
          · subst h
            exact ⟨rfl, rfl, m, List.mem_cons_self m rest, hb⟩
          · obtain ⟨h1, h2, m', hm', h3⟩ := hp en h
            exact ⟨h1, h2, m', List.mem_cons_of_mem m hm', h3⟩
    | none =>
      obtain ⟨new, hn, hp⟩ := ih
        { st with
            logs := st.logs ++ [LogLine.warnNoBody (st.incs + 1) cnt],
            incs := st.incs + 1 }
      refine ⟨new, ?_, ?_⟩
      · simp only [write_messages_go, hb]
        simpa using hn
      · intro en hen
        obtain ⟨h1, h2, m', hm', h3⟩ := hp en hen
        exact ⟨h1, h2, m', List.mem_cons_of_mem m hm', h3⟩

/-! ## Lemmas about the folder loop -/

theorem fetchLoop_append_ok (examine : String → Except String Unit)
    (fetch : String → Except String (List Message)) (arch : ArchiveSink)
    (cnt : Nat) :
    ∀ xs ys st st1, fetchLoop examine fetch arch cnt xs st = (st1, none) →
      fetchLoop examine fetch arch cnt (xs ++ ys) st =
        fetchLoop examine fetch arch cnt ys st1 := by
  intro xs
  induction xs with
  | nil =>
    intro ys st st1 h
    simp [fetchLoop] at h
    simp [h]
  | cons n rest ih =>
    intro ys st st1 h
    cases he : examine n with
    | error e => simp [fetchLoop, he] at h
    | ok u =>
      cases hf : fetch n with
      | ok msgs =>
        rcases hw : write_messages arch msgs n st.appended with ⟨w, werr⟩
        cases werr with
        | some e => simp [fetchLoop, he, hf, hw] at h
        | none =>
          simp only [fetchLoop, he, hf, hw] at h ⊢
          exact ih _ _ _ h
      | error e =>
        simp only [fetchLoop, he, hf] at h ⊢
        exact ih _ _ _ h

theorem fetchLoop_logs (examine : String → Except String Unit)
    (fetch : String → Except String (List Message)) (arch : ArchiveSink)
    (cnt : Nat) :
    ∀ folders st, ∃ t,
      (fetchLoop examine fetch arch cnt folders st).1.logs = st.logs ++ t ∧
      ∀ l ∈ t, isSummary l = false := by
  intro folders
  induction folders with
  | nil => intro st; exact ⟨[], by simp [fetchLoop], by simp⟩
  | cons n rest ih =>
    intro st
    cases he : examine n with
    | error e => exact ⟨[], by simp [fetchLoop, he], by simp⟩
    | ok u =>
      cases hf : fetch n with
      | ok msgs =>
        rcases hw : write_messages arch msgs n st.appended with ⟨w, werr⟩
        obtain ⟨tw, htw, hsw⟩ := write_go_logs arch n msgs.length msgs
          ⟨[], [], 0, 0, st.appended⟩
        have hw2 := hw
        rw [write_messages] at hw2
        rw [hw2] at htw
        simp at htw
        cases werr with
        | some e =>
          refine ⟨w.logs, ?_, ?_⟩
          · simp [fetchLoop, he, hf, hw]
          · rw [htw]; exact hsw
        | none =>
          obtain ⟨t, ht, hs⟩ := ih
            { entries := st.entries ++ w.entries,
              logs := st.logs ++ w.logs ++
                [LogLine.infoFolder (st.folderIncs + 1) cnt n w.total],
              total := st.total + w.total,
              appended := w.appended,
              folderIncs := st.folderIncs + 1 }
          refine ⟨w.logs ++
            [LogLine.infoFolder (st.folderIncs + 1) cnt n w.total] ++ t, ?_, ?_⟩
          · simp only [fetchLoop, he, hf, hw]
            simp at ht
            simp [ht]
          · intro l hl
            simp only [List.append_assoc, List.mem_append] at hl
            rcases hl with h | h | h
            · rw [htw] at h; exact hsw l h
            · rcases List.mem_singleton.mp h with rfl
              simp [isSummary]
            · exact hs l h
      | error e =>
        obtain ⟨t, ht, hs⟩ := ih
          { st with
              logs := st.logs ++
                [LogLine.warnFolder (st.folderIncs + 1) cnt n e],
              folderIncs := st.folderIncs + 1 }
        refine ⟨LogLine.warnFolder (st.folderIncs + 1) cnt n e :: t, ?_, ?_⟩
        · simp only [fetchLoop, he, hf]
          simp at ht
          simp [ht]
        · intro l hl
          rcases List.mem_cons.mp hl with h | h
          · simp [h, isSummary]
          · exact hs l h

theorem fetchLoop_total (examine : String → Except String Unit)
    (fetch : String → Except String (List Message)) (arch : ArchiveSink)
    (cnt : Nat) :
    ∀ folders st st1, fetchLoop examine fetch arch cnt folders st = (st1, none) →
      st1.total = st.total + (folders.map (folderBytes fetch)).sum := by
  intro folders
  induction folders with
  | nil =>
    intro st st1 h
    simp [fetchLoop] at h
    simp [← h]
  | cons n rest ih =>
    intro st st1 h
    cases he : examine n with
    | error e => simp [fetchLoop, he] at h
    | ok u =>
      cases hf : fetch n with
      | ok msgs =>
        rcases hw : write_messages arch msgs n st.appended with ⟨w, werr⟩
        cases werr with
        | some e => simp [fetchLoop, he, hf, hw] at h
        | none =>
          simp only [fetchLoop, he, hf, hw] at h
          have hwt : w.total = 0 + (msgs.map bodyBytes).sum :=
            write_go_total arch n msgs.length msgs ⟨[], [], 0, 0, st.appended⟩ w hw
          have := ih _ _ h
          simp [this, folderBytes, hf]
          omega
      | error e =>
        simp only [fetchLoop, he, hf] at h
        have := ih _ _ h
        simp [this, folderBytes, hf]

theorem fetchLoop_archOK_snd (examine : String → Except String Unit)
    (fetch : String → Except String (List Message)) (cnt : Nat) :
    ∀ folders st, (∀ f ∈ folders, examine f = Except.ok ()) →
      (fetchLoop examine fetch archOK cnt folders st).2 = none := by
  intro folders
  induction folders with
  | nil => intro st _; rfl
  | cons n rest ih =>
    intro st hall
    have he : examine n = Except.ok () := hall n (List.mem_cons_self n rest)
    have hrest : ∀ f ∈ rest, examine f = Except.ok () :=
      fun f hf => hall f (List.mem_cons_of_mem n hf)
    cases hf : fetch n with
    | ok msgs =>
      rcases hw : write_messages archOK msgs n st.appended with ⟨w, werr⟩
      have : werr = none := by
        have := write_go_archOK_snd n msgs.length msgs ⟨[], [], 0, 0, st.appended⟩
        rw [write_messages] at hw
        rw [hw] at this
        exact this
      subst this
      simp only [fetchLoop, he, hf, hw]
      exact ih _ hrest
    | error e =>
      simp only [fetchLoop, he, hf]
      exact ih _ hrest

/-! ## Lemmas about the fingerprint -/

theorem digitChar_hex : ∀ n < 16, isHexChar (Nat.digitChar n) = true := by decide

theorem wordBytes_lt (w : Nat) : ∀ b ∈ wordBytes w, b < 256 := by
  intro b hb
  simp [wordBytes] at hb
  rcases hb with rfl | rfl | rfl | rfl <;> omega

theorem sha256_len (m : List Nat) : (sha256 m).length = 32 := by
  simp [sha256, digestBytes, wordBytes]

theorem sha256_lt (m : List Nat) : ∀ b ∈ sha256 m, b < 256 := by
  intro b hb
  simp only [sha256, digestBytes, List.mem_append] at hb
  rcases hb with ((((((h | h) | h) | h) | h) | h) | h) | h <;>
    exact wordBytes_lt _ b h

theorem hexChars_len : ∀ bs : List Nat, (hexChars bs).length = 2 * bs.length := by
  intro bs
  induction bs with
  | nil => rfl
  | cons b rest ih => simp [hexChars] at ih ⊢; omega

theorem hexChars_hex : ∀ bs : List Nat, (∀ b ∈ bs, b < 256) →
    ∀ c ∈ hexChars bs, isHexChar c = true := by
  intro bs
  induction bs with
  | nil => intro _ c hc; simp [hexChars] at hc
  | cons b rest ih =>
    intro hlt c hc
    simp only [hexChars, List.foldr_cons] at hc
    rcases List.mem_cons.mp hc with rfl | hc
    · have : b / 16 < 16 := by
        have := hlt b (List.mem_cons_self b rest)
        omega
      exact digitChar_hex _ this
    rcases List.mem_cons.mp hc with rfl | hc
    · exact digitChar_hex _ (Nat.mod_lt b (by omega))
    · exact ih (fun x hx => hlt x (List.mem_cons_of_mem b hx)) c hc

/-! ## Lemma about the `\x7b:0>2\x7d` padding -/

theorem pad2_len (t : String) : 2 ≤ (pad2 t).length := by
  unfold pad2
  split
  · assumption
  · rename_i h
    have h1 : (String.mk (List.replicate (2 - t.length) '0')).length =
        2 - t.length := by
      show (List.replicate (2 - t.length) '0').length = 2 - t.length
      simp
    rw [String.length_append, h1]
    omega

/-! ## Claim theorems -/

/-- C3: a message with an absent body is a distinguished non-fatal skip: a
warning is logged, no archive entry is produced for it, it contributes zero
bytes, the per-message progress counter still increments, and iteration
continues; a folder of 3 messages where message 2 has no body yields exactly
2 archive entries, 3 progress increments, and a byte total equal to the sum
of the sizes of messages 1 and 3. -/
theorem claim3_no_body_skip (name : String) (b1 b3 : List Nat) (g : Nat) :
    write_messages archOK [⟨some b1⟩, ⟨none⟩, ⟨some b3⟩] name g =
      (⟨[⟨joinPath name (fingerprint b1 ++ ".eml"), 493, b1⟩,
         ⟨joinPath name (fingerprint b3 ++ ".eml"), 493, b3⟩],
        [LogLine.debugEntry 1 3 (joinPath name (fingerprint b1 ++ ".eml"))
           b1.length,
         LogLine.warnNoBody 2 3,
         LogLine.debugEntry 3 3 (joinPath name (fingerprint b3 ++ ".eml"))
           b3.length],
        3, b1.length + b3.length, g + 2⟩, none) := by
  simp [write_messages, write_messages_go, archOK]

/-- C8: the end-of-run formatter renders a (non-negative) elapsed duration as
`HH:MM:SS` with each field zero-padded to at least two digits and the hours
field unbounded (`seconds / 3600`, not reduced modulo 24); in particular
14249 seconds formats as `03:57:29`, and 360000 seconds as `100:00:00`. -/
theorem claim8_elapsed_format (s : Nat) :
    timeDeltaFormat (Int.ofNat s) =
      pad2 (toString (s / 3600)) ++ ":" ++ pad2 (toString (s / 60 % 60)) ++
        ":" ++ pad2 (toString (s % 60)) ∧
    (∀ t : String, 2 ≤ (pad2 t).length) ∧
    timeDeltaFormat (Int.ofNat 14249) = "03:57:29" ∧
    timeDeltaFormat (Int.ofNat 360000) = "100:00:00" := by
  refine ⟨?_, pad2_len, by decide, by decide⟩
  simp only [timeDeltaFormat]
  have e1 : ((Int.ofNat s).tdiv 60).tdiv 60 = Int.ofNat (s / 3600) := by
    show Int.ofNat (s / 60 / 60) = Int.ofNat (s / 3600)
    exact congrArg Int.ofNat (by omega)
  rw [e1]
  exact rfl

/-- C9: the fingerprint is a deterministic pure function of the body bytes
with no failure mode: equal bodies yield the identical string, and for every
byte input (including the empty one) the result is a 64-character lowercase
hexadecimal string. -/
theorem claim9_fingerprint_deterministic (B1 B2 : List Nat) (h : B1 = B2) :
    fingerprint B1 = fingerprint B2 ∧ (fingerprint B1).length = 64 ∧
    (fingerprint B1).data.all isHexChar = true := by
  subst h
  refine ⟨rfl, ?_, ?_⟩
  · show (hexChars (sha256 B1)).length = 64
    rw [hexChars_len, sha256_len]
  · show (hexChars (sha256 B1)).all isHexChar = true
    rw [List.all_eq_true]
    exact hexChars_hex _ (sha256_lt B1)

/-- C9 witness: the fingerprint contract instantiated at the empty body. -/
theorem claim9_witness :
    fingerprint [] = fingerprint [] ∧ (fingerprint []).length = 64 ∧
    (fingerprint []).data.all isHexChar = true :=
  claim9_fingerprint_deterministic [] [] rfl

/-- C10: a present but zero-length body is not treated as "no body": the
writer emits an archive entry named with the SHA-256 of the empty byte
string, adds zero bytes to the folder total, increments the progress counter,
and logs no skip warning. -/
theorem claim10_empty_body_written (name : String) (g : Nat) :
    write_messages archOK [⟨some []⟩] name g =
      (⟨[⟨joinPath name
            "e3b0c44298fc1c149afbf4c8996fb92427ae41e4649b934ca495991b7852b855.eml",
          493, []⟩],
        [LogLine.debugEntry 1 1 (joinPath name
          "e3b0c44298fc1c149afbf4c8996fb92427ae41e4649b934ca495991b7852b855.eml")
          0],
        1, 0, g + 1⟩, none) := by
  have hfp : fingerprint [] ++ ".eml" =
      "e3b0c44298fc1c149afbf4c8996fb92427ae41e4649b934ca495991b7852b855.eml" := by
    decide
  simp [write_messages, write_messages_go, archOK, hfp]

/-- C4: when folder selection succeeds but the fetch of the full message
range fails, the failure is non-fatal: a warning naming the folder and the
error cause is logged, the folder contributes zero bytes to the grand total
(the loop continues from an otherwise unchanged state, in particular the same
running total), and the run continues with the next folder. -/
theorem claim4_fetch_failure_nonfatal (examine : String → Except String Unit)
    (fetch : String → Except String (List Message)) (arch : ArchiveSink)
    (cnt : Nat) (f : String) (rest : List String) (st : RunSt) (e : String)
    (hexm : examine f = Except.ok ()) (hf : fetch f = Except.error e) :
    fetchLoop examine fetch arch cnt (f :: rest) st =
      fetchLoop examine fetch arch cnt rest
        { st with
            logs := st.logs ++
              [LogLine.warnFolder (st.folderIncs + 1) cnt f e],
            folderIncs := st.folderIncs + 1 } ∧
    LogLine.warnFolder (st.folderIncs + 1) cnt f e ∈
      (fetchLoop examine fetch arch cnt (f :: rest) st).1.logs := by
  have h1 : fetchLoop examine fetch arch cnt (f :: rest) st =
      fetchLoop examine fetch arch cnt rest
        { st with
            logs := st.logs ++
              [LogLine.warnFolder (st.folderIncs + 1) cnt f e],
            folderIncs := st.folderIncs + 1 } := by
    simp [fetchLoop, hexm, hf]
  refine ⟨h1, ?_⟩
  rw [h1]
  obtain ⟨t, ht, _⟩ := fetchLoop_logs examine fetch arch cnt rest
    { st with
        logs := st.logs ++ [LogLine.warnFolder (st.folderIncs + 1) cnt f e],
        folderIncs := st.folderIncs + 1 }
  rw [ht]
  simp

/-- A fetch that always fails, for the C4 witness. -/
def downFetch : String → Except String (List Message) :=
  fun _ => Except.error "net"

/-- An examine that always succeeds. -/
def okExamine : String → Except String Unit := fun _ => Except.ok ()

/-- C4 witness: the non-fatal fetch failure instantiated at a concrete
folder. -/
theorem claim4_witness :
    fetchLoop okExamine downFetch archOK 1 ["F"] initSt =
      fetchLoop okExamine downFetch archOK 1 []
        { initSt with
            logs := [LogLine.warnFolder 1 1 "F" "net"],
            folderIncs := 1 } ∧
    LogLine.warnFolder 1 1 "F" "net" ∈
      (fetchLoop okExamine downFetch archOK 1 ["F"] initSt).1.logs := by
  have h := claim4_fetch_failure_nonfatal okExamine downFetch archOK 1 "F" []
    initSt "net" rfl rfl
  simpa [initSt] using h

/-- C5: every archive entry produced by the writer has mode bits `0o755`
(`493`), a path that is the folder name joined with the lowercase hex SHA-256
of the entry's contents plus `.eml`, and contents that are exactly the raw
body of one of the folder's messages; consequently the entry name is a
function purely of the body bytes, and two entries with byte-identical
contents in the same folder carry the same path. -/
theorem claim5_entry_contract (arch : ArchiveSink) (msgs : List Message)
    (name : String) (g : Nat) :
    (∀ en ∈ (write_messages arch msgs name g).1.entries,
       en.mode = 493 ∧
       en.path = joinPath name (fingerprint en.contents ++ ".eml") ∧
       (name ≠ "" →
         en.path = name ++ "/" ++ (fingerprint en.contents ++ ".eml")) ∧
       ∃ m ∈ msgs, m.body = some en.contents) ∧
    (∀ en1 ∈ (write_messages arch msgs name g).1.entries,
     ∀ en2 ∈ (write_messages arch msgs name g).1.entries,
       en1.contents = en2.contents → en1.path = en2.path) := by
  obtain ⟨new, hn, hp⟩ := write_go_entries arch name msgs.length msgs
    ⟨[], [], 0, 0, g⟩
  have hent : (write_messages arch msgs name g).1.entries = new := by
    rw [write_messages, hn]
    exact List.nil_append new
  constructor
  · intro en hen
    rw [hent] at hen
    obtain ⟨h1, h2, hm⟩ := hp en hen
    refine ⟨h1, h2, ?_, hm⟩
    intro hne
    rw [h2, joinPath, if_neg hne]
  · intro en1 h1 en2 h2 hc
    rw [hent] at h1 h2
    obtain ⟨_, hp1, _⟩ := hp en1 h1
    obtain ⟨_, hp2, _⟩ := hp en2 h2
    rw [hp1, hp2, hc]

/-- C5 witness: the entry contract instantiated at a one-message folder with
an empty body. -/
theorem claim5_witness :
    (⟨"F/e3b0c44298fc1c149afbf4c8996fb92427ae41e4649b934ca495991b7852b855.eml",
      493, []⟩ : Entry).mode = 493 ∧
    (⟨"F/e3b0c44298fc1c149afbf4c8996fb92427ae41e4649b934ca495991b7852b855.eml",
      493, []⟩ : Entry).path =
      joinPath "F" (fingerprint
        (⟨"F/e3b0c44298fc1c149afbf4c8996fb92427ae41e4649b934ca495991b7852b855.eml",
          493, []⟩ : Entry).contents ++ ".eml") ∧
    ("F" ≠ "" →
      (⟨"F/e3b0c44298fc1c149afbf4c8996fb92427ae41e4649b934ca495991b7852b855.eml",
        493, []⟩ : Entry).path =
        "F" ++ "/" ++ (fingerprint
          (⟨"F/e3b0c44298fc1c149afbf4c8996fb92427ae41e4649b934ca495991b7852b855.eml",
            493, []⟩ : Entry).contents ++ ".eml")) ∧
    ∃ m ∈ [(⟨some []⟩ : Message)], m.body = some
      (⟨"F/e3b0c44298fc1c149afbf4c8996fb92427ae41e4649b934ca495991b7852b855.eml",
        493, []⟩ : Entry).contents :=
  (claim5_entry_contract archOK [⟨some []⟩] "F" 0).1
    ⟨"F/e3b0c44298fc1c149afbf4c8996fb92427ae41e4649b934ca495991b7852b855.eml",
      493, []⟩ (by decide)

/-- C1 (amended): a failure to switch the selected folder is fatal:
`session.examine(name)?` propagates the error, so once the folders before `f`
have been processed, an examine error on `f` aborts the run with that very
error; the folders after `f` are not processed, no warning for `f` is logged,
no summary is emitted and the archive is not finalized. -/
theorem claim1_selection_failure_fatal (examine : String → Except String Unit)
    (fetch : String → Except String (List Message)) (arch : ArchiveSink)
    (pre : List String) (f : String) (post : List String) (st : RunSt)
    (e : String)
    (hpre : fetchLoop examine fetch arch (pre ++ f :: post).length pre initSt =
      (st, none))
    (hf : examine f = Except.error e) :
    mainRun (Except.ok (pre ++ f :: post)) examine fetch arch =
      ⟨st.entries, st.logs, st.total, some e, false, false⟩ := by
  have hl : fetchLoop examine fetch arch (pre ++ f :: post).length
      (pre ++ f :: post) initSt = (st, some e) := by
    rw [fetchLoop_append_ok examine fetch arch (pre ++ f :: post).length pre
      (f :: post) initSt st hpre]
    simp [fetchLoop, hf]
  simp only [mainRun, hl]

/-- The C1 session: selecting folder `B` fails, everything else succeeds. -/
def cexExamine : String → Except String Unit :=
  fun n => if n = "B" then Except.error "boom" else Except.ok ()

/-- The C1 fetch: folder `A` holds one 1-byte message, any other folder one
different 1-byte message. -/
def cexFetch : String → Except String (List Message) :=
  fun n => if n = "A" then Except.ok [⟨some [97]⟩] else Except.ok [⟨some [99]⟩]

/-- C1 counterexample: with folder list `[A, B, C]` where selecting `B`
fails, the run IS aborted (`err = some "boom"`), only `A`'s single entry
exists (nothing for `C`), the grand total counts only `A`, no warning
mentioning `B` is logged, and no summary is emitted — refuting the claim that
the failure is non-fatal and that `A` and `C` both contribute. -/
theorem claim1_counterexample :
    (mainRun (Except.ok ["A", "B", "C"]) cexExamine cexFetch archOK).err =
      some "boom" ∧
    (mainRun (Except.ok ["A", "B", "C"]) cexExamine cexFetch
      archOK).entries.length = 1 ∧
    (mainRun (Except.ok ["A", "B", "C"]) cexExamine cexFetch archOK).total = 1 ∧
    (mainRun (Except.ok ["A", "B", "C"]) cexExamine cexFetch archOK).summary =
      false ∧
    (mainRun (Except.ok ["A", "B", "C"]) cexExamine cexFetch archOK).logs =
      [LogLine.debugEntry 1 1
        "A/ca978112ca1bbdcafac231b39a23dc4da786eff8147c4e72b9807785afee48bb.eml"
        1,
       LogLine.infoFolder 1 3 "A" 1] := by
  decide

/-- C1 witness: the amended fatal-selection theorem instantiated at the
concrete `[A, B, C]` session. -/
theorem claim1_witness :
    fetchLoop cexExamine cexFetch archOK 3 ["A"] initSt =
      ((fetchLoop cexExamine cexFetch archOK 3 ["A"] initSt).1, none) ∧
    cexExamine "B" = Except.error "boom" ∧
    mainRun (Except.ok (["A"] ++ "B" :: ["C"])) cexExamine cexFetch archOK =
      ⟨(fetchLoop cexExamine cexFetch archOK 3 ["A"] initSt).1.entries,
       (fetchLoop cexExamine cexFetch archOK 3 ["A"] initSt).1.logs,
       (fetchLoop cexExamine cexFetch archOK 3 ["A"] initSt).1.total,
       some "boom", false, false⟩ :=
  ⟨by decide, rfl,
   claim1_selection_failure_fatal cexExamine cexFetch archOK ["A"] "B" ["C"]
     (fetchLoop cexExamine cexFetch archOK 3 ["A"] initSt).1 "boom"
     (by decide) rfl⟩

/-- C2: an archive write failure is fatal: when the writer returns an error
for some folder, that very error is the run's error (propagated unchanged
through the folder loop and the orchestrator), the folders after it are not
processed, the run's archive entries stop at the ones appended before the
failure, the grand total does not absorb the failing folder, and no summary
log line is emitted. -/
theorem claim2_archive_write_fatal (examine : String → Except String Unit)
    (fetch : String → Except String (List Message)) (arch : ArchiveSink)
    (pre : List String) (f : String) (post : List String)
    (msgs : List Message) (st : RunSt) (w : WriteSt) (e : String)
    (hpre : fetchLoop examine fetch arch (pre ++ f :: post).length pre initSt =
      (st, none))
    (hexm : examine f = Except.ok ())
    (hfet : fetch f = Except.ok msgs)
    (hwr : write_messages arch msgs f st.appended = (w, some e)) :
    mainRun (Except.ok (pre ++ f :: post)) examine fetch arch =
      ⟨st.entries ++ w.entries, st.logs ++ w.logs, st.total, some e,
        false, false⟩ ∧
    ∀ l ∈ (mainRun (Except.ok (pre ++ f :: post)) examine fetch arch).logs,
      isSummary l = false := by
  have hl : fetchLoop examine fetch arch (pre ++ f :: post).length
      (pre ++ f :: post) initSt =
      ({ st with
           entries := st.entries ++ w.entries,
           logs := st.logs ++ w.logs,
           appended := w.appended }, some e) := by
    rw [fetchLoop_append_ok examine fetch arch (pre ++ f :: post).length pre
      (f :: post) initSt st hpre]
    simp [fetchLoop, hexm, hfet, hwr]
  have hmain : mainRun (Except.ok (pre ++ f :: post)) examine fetch arch =
      ⟨st.entries ++ w.entries, st.logs ++ w.logs, st.total, some e,
        false, false⟩ := by
    simp only [mainRun, hl]
  refine ⟨hmain, ?_⟩
  rw [hmain]
  intro l hmem
  obtain ⟨t, ht, hs⟩ := fetchLoop_logs examine fetch arch
    (pre ++ f :: post).length pre initSt
  rw [hpre] at ht
  simp [initSt] at ht
  obtain ⟨tw, htw, hsw⟩ := write_go_logs arch f msgs.length msgs
    ⟨[], [], 0, 0, st.appended⟩
  have hw2 := hwr
  rw [write_messages] at hw2
  rw [hw2] at htw
  simp at htw
  simp only [List.mem_append] at hmem
  rcases hmem with h | h
  · rw [ht] at h
    exact hs l h
  · rw [htw] at h
    exact hsw l h

/-- The C2 archive sink: the fifth append (global index 4) fails. -/
def failAt5 : ArchiveSink :=
  fun n => if n = 4 then Except.error "disk full" else Except.ok ()

/-- Six one-byte messages for the C2 witness. -/
def msgs6 : List Message :=
  [⟨some [97]⟩, ⟨some [97]⟩, ⟨some [97]⟩, ⟨some [97]⟩, ⟨some [97]⟩,
   ⟨some [97]⟩]

/-- The C2 fetch: every folder holds the six messages. -/
def wexFetch : String → Except String (List Message) :=
  fun _ => Except.ok msgs6

/-- C2 witness: the fatal-abort theorem instantiated at a sink whose write
call fails on the 5th message, with a further folder `G` pending. -/
theorem claim2_witness :
    fetchLoop okExamine wexFetch failAt5 2 [] initSt = (initSt, none) ∧
    okExamine "F" = Except.ok () ∧
    wexFetch "F" = Except.ok msgs6 ∧
    write_messages failAt5 msgs6 "F" initSt.appended =
      ((write_messages failAt5 msgs6 "F" initSt.appended).1, some "disk full") ∧
    mainRun (Except.ok ([] ++ "F" :: ["G"])) okExamine wexFetch failAt5 =
      ⟨initSt.entries ++ (write_messages failAt5 msgs6 "F"
          initSt.appended).1.entries,
       initSt.logs ++ (write_messages failAt5 msgs6 "F"
          initSt.appended).1.logs,
       initSt.total, some "disk full", false, false⟩ :=
  ⟨by decide, rfl, rfl, by decide,
   (claim2_archive_write_fatal okExamine wexFetch failAt5 [] "F" ["G"] msgs6
     initSt (write_messages failAt5 msgs6 "F" initSt.appended).1 "disk full"
     (by decide) rfl rfl (by decide)).1⟩

/-- C6 (amended): for every run that completes, the grand total equals the
sum, over folders in listing order, of each folder's byte total — zero for a
folder whose fetch failed, and otherwise the sum of the body lengths of its
messages, counting duplicate-content writes each time. -/
theorem claim6_total_additive (folders : List String)
    (examine : String → Except String Unit)
    (fetch : String → Except String (List Message)) (arch : ArchiveSink)
    (h : (mainRun (Except.ok folders) examine fetch arch).err = none) :
    (mainRun (Except.ok folders) examine fetch arch).total =
      (folders.map (folderBytes fetch)).sum := by
  rcases hl : fetchLoop examine fetch arch folders.length folders initSt
    with ⟨st, err⟩
  cases err with
  | some e =>
    simp only [mainRun, hl] at h
    simp at h
  | none =>
    have ht := fetchLoop_total examine fetch arch folders.length folders
      initSt st hl
    simp only [mainRun, hl]
    simp [ht, initSt]

/-- The C6 fetch: `INBOX` holds two messages with body `"hello"`, every other
folder one message with body `"world"`. -/
def exInboxFetch : String → Except String (List Message) :=
  fun n =>
    if n = "INBOX" then
      Except.ok [⟨some [104, 101, 108, 108, 111]⟩,
                 ⟨some [104, 101, 108, 108, 111]⟩]
    else Except.ok [⟨some [119, 111, 114, 108, 100]⟩]

/-- C6 counterexample: for folders `INBOX` (bodies `"hello"`, `"hello"`) and
`Archive` (body `"world"`), the code reports a grand total of 15 bytes
(5 + 5 + 5, counting both `INBOX` writes), not the 10 the claim states. -/
theorem claim6_counterexample :
    (mainRun (Except.ok ["INBOX", "Archive"]) okExamine exInboxFetch
      archOK).total = 15 ∧
    ¬ (mainRun (Except.ok ["INBOX", "Archive"]) okExamine exInboxFetch
      archOK).total = 10 := by
  decide

/-- C6 witness: the additivity theorem instantiated at the `INBOX`/`Archive`
scenario. -/
theorem claim6_witness :
    (mainRun (Except.ok ["INBOX", "Archive"]) okExamine exInboxFetch
      archOK).err = none ∧
    (mainRun (Except.ok ["INBOX", "Archive"]) okExamine exInboxFetch
      archOK).total =
      ((["INBOX", "Archive"]).map (folderBytes exInboxFetch)).sum :=
  ⟨by decide,
   claim6_total_additive ["INBOX", "Archive"] okExamine exInboxFetch archOK
     (by decide)⟩

/-- C7: the archive is finalized (`writer.finish()` reached) exactly when the
orchestrator completes iterating over all enumerated folders; an abort (list
failure or a propagated loop error) leaves it unfinalized and unsummarized,
and with non-fatal failures only (fetch errors, missing bodies) under an
always-succeeding sink the run does finish. -/
theorem claim7_finalize_iff_complete (listRes : Except String (List String))
    (examine : String → Except String Unit)
    (fetch : String → Except String (List Message)) (arch : ArchiveSink) :
    ((mainRun listRes examine fetch arch).finished = true ↔
      ∃ folders, listRes = Except.ok folders ∧
        (fetchLoop examine fetch arch folders.length folders initSt).2 =
          none) ∧
    ((mainRun listRes examine fetch arch).err = none ↔
      (mainRun listRes examine fetch arch).finished = true) ∧
    ((mainRun listRes examine fetch arch).summary =
      (mainRun listRes examine fetch arch).finished) ∧
    (∀ folders, listRes = Except.ok folders →
      (∀ f ∈ folders, examine f = Except.ok ()) →
      (mainRun listRes examine fetch archOK).finished = true) := by
  refine ⟨?_, ?_, ?_, ?_⟩
  · cases listRes with
    | error e => simp [mainRun]
    | ok folders =>
      rcases hl : fetchLoop examine fetch arch folders.length folders initSt
        with ⟨st, err⟩
      cases err with
      | some e =>
        simp only [mainRun, hl]
        constructor
        · intro h; exact absurd h (by simp)
        · rintro ⟨folders', hf, h2⟩
          cases hf
          rw [hl] at h2
          simp at h2
      | none =>
        simp only [mainRun, hl]
        constructor
        · intro _; exact ⟨folders, rfl, by rw [hl]⟩
        · intro _; trivial
  · cases listRes with
    | error e => simp [mainRun]
    | ok folders =>
      rcases hl : fetchLoop examine fetch arch folders.length folders initSt
        with ⟨st, err⟩
      cases err with
      | some e => simp [mainRun, hl]
      | none => simp [mainRun, hl]
  · cases listRes with
    | error e => simp [mainRun]
    | ok folders =>
      rcases hl : fetchLoop examine fetch arch folders.length folders initSt
        with ⟨st, err⟩
      cases err with
      | some e => simp [mainRun, hl]
      | none => simp [mainRun, hl]
  · intro folders hres hall
    cases listRes with
    | error e => cases hres
    | ok folders' =>
      injection hres with h
      subst h
      rcases hl : fetchLoop examine fetch archOK folders'.length folders'
        initSt with ⟨st, err⟩
      have hnone := fetchLoop_archOK_snd examine fetch folders'.length
        folders' initSt hall
      rw [hl] at hnone
      simp at hnone
      subst hnone
      simp only [mainRun, hl]

/-- The C7 fetch: folder `BAD` fails to fetch, every other folder holds one
message without a body and one 1-byte message. -/
def mixFetch : String → Except String (List Message) :=
  fun n =>
    if n = "BAD" then Except.error "net"
    else Except.ok [⟨none⟩, ⟨some [97]⟩]

/-- C7 witness: a run with a fetch failure and a missing body (non-fatal
failures only) still finishes, by the finalization theorem. -/
theorem claim7_witness :
    (mainRun (Except.ok ["GOOD", "BAD"]) okExamine mixFetch archOK).finished =
      true :=
  (claim7_finalize_iff_complete (Except.ok ["GOOD", "BAD"]) okExamine mixFetch
    archOK).2.2.2 ["GOOD", "BAD"] rfl (fun _ _ => rfl)

end Mailcopy
